import Mathlib

/-
  Verification development for the Trading-Strategies-Evaluation repository.

  The backtest engine (src/backtesting.py, backtest_strategy) and the metrics
  functions (src/metrics.py) are shallowly embedded below.  Python floats are
  modelled as rationals, with the float output of the Sharpe computation
  modelled over the reals; a Python exception is modelled as Option.none or a
  dedicated branch; NaN values produced by pandas or numpy are modelled as
  Option.none together with comparison helpers in which every comparison
  against a NaN is false, exactly as in IEEE semantics.
-/

/-- MarketAction from src/interface.py: BUY, SELL, HOLD. -/
inductive MarketAction where
  | BUY
  | SELL
  | HOLD
deriving DecidableEq

/-- MarketDecision from src/interface.py: a decision to buy or sell a stock.
    The price is a Python float (modelled as a rational) and the quantity a
    Python int. -/
structure MarketDecision where
  symbol : String
  action : MarketAction
  price : ℚ
  quantity : ℤ
deriving DecidableEq

/-- The mutable portfolio and series state of the loop in backtest_strategy
    (src/backtesting.py lines 161-226).  The dates list is tracked only by its
    length since the engine never reads the stored dates back during the loop. -/
structure EngineState where
  cash : ℚ
  position : ℤ
  previous_value : ℚ
  previous_market_price : Option ℚ
  dates : ℕ
  portfolio_values : List ℚ
  stock_prices : List ℚ
  daily_returns : List ℚ
  market_returns : List ℚ
deriving DecidableEq

/-- Lines 192-197 of src/backtesting.py: apply a decision to cash and
    position.  A BUY executes only when cash covers price times quantity, a
    SELL only when the position covers the quantity; anything else leaves both
    untouched. -/
def applyTrade (cash : ℚ) (position : ℤ) (d : MarketDecision) : ℚ × ℤ :=
  if d.action = MarketAction.BUY ∧ d.price * (d.quantity : ℚ) ≤ cash then
    (cash - d.price * (d.quantity : ℚ), position + d.quantity)
  else if d.action = MarketAction.SELL ∧ d.quantity ≤ position then
    (cash + d.price * (d.quantity : ℚ), position - d.quantity)
  else
    (cash, position)

/-- One iteration of the loop at lines 187-226 of src/backtesting.py.  The
    argument none models an exception raised by strategy.generate_signal: the
    broad except clause then skips the whole body, so the state is returned
    unchanged.  With a decision, the trade is applied, the period valuation and
    price are appended, and then the return computation runs: a division by a
    previous value of zero raises ZeroDivisionError, which the same except
    clause catches, so the body stops right there (the appends already
    happened, the return lists and the previous trackers stay as they were).
    The same applies to a recorded previous market price of zero. -/
def stepPeriod (s : EngineState) (dec : Option MarketDecision) : EngineState :=
  match dec with
  | none => s
  | some d =>
    let t := applyTrade s.cash s.position d
    let pv := t.1 + (t.2 : ℚ) * d.price
    let s1 : EngineState :=
      { s with cash := t.1, position := t.2,
               portfolio_values := s.portfolio_values ++ [pv],
               stock_prices := s.stock_prices ++ [d.price],
               dates := s.dates + 1 }
    if s.previous_value = 0 then s1
    else
      match s.previous_market_price with
      | none =>
        { s1 with previous_value := pv, previous_market_price := some d.price }
      | some pmp =>
        if pmp = 0 then s1
        else
          { s1 with
              daily_returns := s1.daily_returns ++ [(pv - s.previous_value) / s.previous_value],
              market_returns := s1.market_returns ++ [(d.price - pmp) / pmp],
              previous_value := pv,
              previous_market_price := some d.price }

/-- The initial loop state of backtest_strategy: all cash, no position, the
    previous-value tracker seeded with the initial cash and no previous market
    price (lines 161-184 of src/backtesting.py). -/
def initState (initial_cash : ℚ) : EngineState :=
  { cash := initial_cash, position := 0, previous_value := initial_cash,
    previous_market_price := none, dates := 0, portfolio_values := [],
    stock_prices := [], daily_returns := [], market_returns := [] }

/-- The loop of backtest_strategy over a list of per-period outcomes of
    strategy.generate_signal, where none stands for a raised exception. -/
def backtest_strategy (initial_cash : ℚ) (decisions : List (Option MarketDecision)) :
    EngineState :=
  decisions.foldl stepPeriod (initState initial_cash)

namespace BuyAndHoldStrategy

/-- Python int() truncates toward zero. -/
def ratTrunc (x : ℚ) : ℤ :=
  if 0 ≤ x then ⌊x⌋ else ⌈x⌉

/-- generate_signal of src/strategy/buy_and_hold.py, lines 20-73, for a
    period whose fetched last close is price.  The data-fetching part is out
    of scope (the bar series is assumed available), so the function is given
    the close directly, the internal first-trade flag is passed and returned
    explicitly, and the position argument is kept from the source signature
    even though the source never reads it. -/
def generate_signal (first_trade : Bool) (price : ℚ) (position : ℤ) (cash : ℚ) :
    MarketDecision × Bool :=
  if first_trade = true ∧ price < cash then
    let max_shares : ℤ := ratTrunc (cash / price)
    if 0 < max_shares then
      (⟨"AAPL", MarketAction.BUY, price, max_shares⟩, false)
    else
      (⟨"AAPL", MarketAction.HOLD, price, 0⟩, first_trade)
  else
    (⟨"AAPL", MarketAction.HOLD, price, 0⟩, first_trade)

end BuyAndHoldStrategy

/-- One period of the backtest loop driven by the buy-and-hold strategy on a
    fixed, always-available price series: ask the strategy for a decision at
    the current close, then run the engine body on it. -/
def stepWithPolicy (p : EngineState × Bool) (price : ℚ) : EngineState × Bool :=
  let r := BuyAndHoldStrategy.generate_signal p.2 price p.1.position p.1.cash
  (stepPeriod p.1 (some r.1), r.2)

/-- backtest_strategy specialised to BuyAndHoldStrategy over a deterministic
    list of daily closes. -/
def run_buy_and_hold (initial_cash : ℚ) (prices : List ℚ) : EngineState × Bool :=
  prices.foldl stepWithPolicy (initState initial_cash, true)

/-- Mean of a list, as computed by pandas over a nonempty series.  On the
    empty list the rational division by zero yields 0 here, while pandas
    yields NaN; every use below is guarded so the empty case never matters. -/
def pmean (xs : List ℚ) : ℚ :=
  xs.sum / (xs.length : ℚ)

/-- Sample variance with the pandas default ddof = 1, the square of the std
    used in calculate_sharpe_ratio (src/metrics.py line 17 and 20).  pandas
    std is NaN for fewer than two entries, modelled as none.  The source
    compares std to zero and divides by std; since std is the square root of
    this quantity and the quantity is a sum of squares, std equals zero
    exactly when this variance equals zero. -/
def sampleVar (xs : List ℚ) : Option ℚ :=
  if xs.length < 2 then none
  else some ((xs.map (fun x => (x - pmean xs) ^ 2)).sum / ((xs.length : ℚ) - 1))

/-- calculate_sharpe_ratio from src/metrics.py lines 3-21: daily risk-free
    rate is the annual rate over 252, excess returns subtract it, a zero
    std yields 0, and otherwise the result is sqrt(252) times the mean of the
    excess returns over their std.  A NaN std (fewer than two entries) makes
    the zero test false and then propagates through the division, so the
    result is NaN, modelled as none. -/
noncomputable def calculate_sharpe (returns : List ℚ) (risk_free_rate : ℚ) : Option ℝ :=
  let daily_rf := risk_free_rate / 252
  let excess_returns := returns.map (fun r => r - daily_rf)
  match sampleVar excess_returns with
  | none => none
  | some v =>
    if v = 0 then some 0
    else some (Real.sqrt 252 * ((pmean excess_returns : ℝ) / Real.sqrt (v : ℝ)))

/-- The loop state of calculate_max_drawdown (src/metrics.py lines 32-36). -/
structure DDState where
  peak : ℚ
  max_dd : ℚ
  max_dd_duration : ℕ
  current_dd_duration : ℕ
  peak_idx : ℕ
deriving DecidableEq

/-- One iteration of the loop at lines 38-48 of src/metrics.py, consuming the
    pair of index and value produced by enumerate. -/
def ddStep (st : DDState) (iv : ℕ × ℚ) : DDState :=
  if st.peak < iv.2 then
    { st with peak := iv.2, peak_idx := iv.1, current_dd_duration := 0 }
  else
    let cur := iv.1 - st.peak_idx
    let dd := (st.peak - iv.2) / st.peak
    if st.max_dd < dd then
      { st with current_dd_duration := cur, max_dd := dd, max_dd_duration := cur }
    else
      { st with current_dd_duration := cur }

/-- calculate_max_drawdown from src/metrics.py lines 23-50.  The source
    starts by reading portfolio_values[0], which raises IndexError on an empty
    list; the empty case below is junk and every theorem uses a nonempty
    list. -/
def calculate_max_drawdown (portfolio_values : List ℚ) : ℚ × ℕ :=
  match portfolio_values with
  | [] => (0, 0)
  | v0 :: _ =>
    let final := portfolio_values.enum.foldl ddStep
      { peak := v0, max_dd := 0, max_dd_duration := 0,
        current_dd_duration := 0, peak_idx := 0 }
    (final.max_dd, final.max_dd_duration)

/-- Modelled from the spec: the maximum over all indices of
    (running peak - value) / running peak, where the running peak is the
    largest value seen so far starting from the given peak.  This is the
    specification-level description of max drawdown against which the scan of
    calculate_max_drawdown is compared. -/
def maxDrawdownSpec (peak : ℚ) : List ℚ → ℚ
  | [] => 0
  | v :: t => max ((max peak v - v) / max peak v) (maxDrawdownSpec (max peak v) t)

/-- The off-diagonal entry of np.cov with its default ddof = 1, as used at
    line 62 of src/metrics.py: the sum of products of deviations over n - 1. -/
def npCov (xs ys : List ℚ) : ℚ :=
  ((List.zip xs ys).map (fun p => (p.1 - pmean xs) * (p.2 - pmean ys))).sum /
    ((xs.length : ℚ) - 1)

/-- np.var with its default ddof = 0, as used at line 64 of src/metrics.py:
    the sum of squared deviations over n. -/
def npVar (ys : List ℚ) : ℚ :=
  (ys.map (fun y => (y - pmean ys) ^ 2)).sum / (ys.length : ℚ)

/-- calculate_beta from src/metrics.py lines 52-66: the np.cov entry over the
    np.var of the market returns when that variance is nonzero, and 1.0
    otherwise. -/
def calculate_beta (strategy_returns market_returns : List ℚ) : ℚ :=
  let covariance := npCov strategy_returns market_returns
  let market_variance := npVar market_returns
  if market_variance ≠ 0 then covariance / market_variance else 1

/-- Modelled from the spec: population covariance, the same n normalisation
    as the population variance, for reading the claim with one uniform
    convention. -/
def covPop (xs ys : List ℚ) : ℚ :=
  ((List.zip xs ys).map (fun p => (p.1 - pmean xs) * (p.2 - pmean ys))).sum /
    (xs.length : ℚ)

/-- Modelled from the spec: population variance of a series, identical in
    value to npVar and written separately as the specification-side reading. -/
def varPop (ys : List ℚ) : ℚ :=
  (ys.map (fun y => (y - pmean ys) ^ 2)).sum / (ys.length : ℚ)

/-- Modelled from the spec: sample covariance with n - 1 normalisation, for
    reading the claim with the other uniform convention. -/
def covSamp (xs ys : List ℚ) : ℚ :=
  ((List.zip xs ys).map (fun p => (p.1 - pmean xs) * (p.2 - pmean ys))).sum /
    ((xs.length : ℚ) - 1)

/-- Modelled from the spec: sample variance with n - 1 normalisation. -/
def varSamp (ys : List ℚ) : ℚ :=
  (ys.map (fun y => (y - pmean ys) ^ 2)).sum / ((ys.length : ℚ) - 1)

/-- Comparison of possibly-NaN floats: a NaN on either side makes a greater
    than comparison false, as in Python. -/
def gtF : Option ℚ → Option ℚ → Bool
  | some a, some b => decide (b < a)
  | _, _ => false

/-- Comparison of possibly-NaN floats: less than, false on NaN. -/
def ltF : Option ℚ → Option ℚ → Bool
  | some a, some b => decide (a < b)
  | _, _ => false

/-- Comparison of possibly-NaN floats: greater or equal, false on NaN. -/
def geF : Option ℚ → Option ℚ → Bool
  | some a, some b => decide (b ≤ a)
  | _, _ => false

/-- Comparison of possibly-NaN floats: less or equal, false on NaN. -/
def leF : Option ℚ → Option ℚ → Bool
  | some a, some b => decide (a ≤ b)
  | _, _ => false

/-- The rolling mean ta.sma of window w at index i over the close series:
    NaN (none) before the warm-up of w bars, otherwise the mean of the w
    closes ending at i.  Models the external pandas-ta indicator per its
    contract; the strategies below only branch on whether a value is NaN. -/
def smaAt (w : ℕ) (closes : List ℚ) (i : ℕ) : Option ℚ :=
  if w = 0 ∨ i + 1 < w ∨ closes.length ≤ i then none
  else some (((closes.drop (i + 1 - w)).take w).sum / (w : ℚ))

namespace SMAStrategy

/-- generate_signal of src/strategy/sma.py lines 40-93 on the fetched close
    series (data retrieval is out of scope, the list of closes stands for the
    lookback window).  An empty window raises when reading iloc[-1], modelled
    as none; a window shorter than the long SMA length returns HOLD at the
    last close; a single-bar window past that guard would raise at iloc[-2];
    otherwise the SMA crossover rule fires, with NaN comparisons false, a BUY
    requiring affordability inside the condition and a SELL requiring a
    sufficient position inside the condition. -/
def generate_signal (short_window long_window : ℕ) (trade_quantity : ℤ)
    (closes : List ℚ) (position : ℤ) (cash : ℚ) : Option MarketDecision :=
  match closes.getLast? with
  | none => none
  | some current_price =>
    if closes.length < long_window then
      some ⟨"AAPL", MarketAction.HOLD, current_price, 0⟩
    else if closes.length < 2 then
      none
    else
      let n := closes.length
      let curS := smaAt short_window closes (n - 1)
      let curL := smaAt long_window closes (n - 1)
      let prevS := smaAt short_window closes (n - 2)
      let prevL := smaAt long_window closes (n - 2)
      let can_buy := decide (current_price * (trade_quantity : ℚ) ≤ cash)
      if gtF curS curL && leF prevS prevL && can_buy then
        some ⟨"AAPL", MarketAction.BUY, current_price, trade_quantity⟩
      else if ltF curS curL && geF prevS prevL && decide (trade_quantity ≤ position) then
        some ⟨"AAPL", MarketAction.SELL, current_price, trade_quantity⟩
      else
        some ⟨"AAPL", MarketAction.HOLD, current_price, 0⟩

end SMAStrategy

/-- The exponential moving average recursion used by pandas-ta after its
    seed: each output is alpha times the close plus one minus alpha times the
    previous output. -/
def emaFrom (a : ℚ) : ℚ → List ℚ → List ℚ
  | _, [] => []
  | prev, x :: t =>
    let v := a * x + (1 - a) * prev
    v :: emaFrom a v t

/-- The pandas-ta ema with its default sma seed: NaN before index w - 1, the
    simple mean of the first w closes at index w - 1, then the EMA recursion
    with alpha 2 / (w + 1).  A series shorter than the window is all NaN.
    Models the external indicator library per its documented contract;
    no theorem below depends on the numeric values past the warm-up. -/
def emaPT (w : ℕ) (closes : List ℚ) : List (Option ℚ) :=
  if closes.length < w ∨ w = 0 then closes.map (fun _ => none)
  else
    let seed := (closes.take w).sum / (w : ℚ)
    (List.replicate (w - 1) (none : Option ℚ)) ++ [some seed] ++
      (emaFrom (2 / ((w : ℚ) + 1)) seed (closes.drop w)).map some

/-- Exponentially weighted mean over a series with NaN entries, as pandas ewm
    with adjust false: NaN until the first finite value, which seeds the
    recursion; later NaN entries carry the previous output forward. -/
def ewmNaN (a : ℚ) : Option ℚ → List (Option ℚ) → List (Option ℚ)
  | _, [] => []
  | none, none :: t => none :: ewmNaN a none t
  | none, some x :: t => some x :: ewmNaN a (some x) t
  | some p, none :: t => some p :: ewmNaN a (some p) t
  | some p, some x :: t =>
    let v := a * x + (1 - a) * p
    some v :: ewmNaN a (some v) t

/-- The external pandas-ta macd(close) with its default lengths 12, 26, 9, as
    called at line 25 of src/strategy/macd.py.  pandas-ta validates the series
    length against the slow length and returns None when it is too short;
    otherwise each row carries the MACD line (fast EMA minus slow EMA, NaN
    during the warm-up) and the signal line (EMA of the MACD line). -/
def taMacd (closes : List ℚ) : Option (List (Option ℚ × Option ℚ)) :=
  if closes.length < 26 then none
  else
    let fastE := emaPT 12 closes
    let slowE := emaPT 26 closes
    let macdLine := List.zipWith
      (fun a b => match a, b with
        | some x, some y => some (x - y)
        | _, _ => (none : Option ℚ)) fastE slowE
    some (List.zip macdLine (ewmNaN (1 / 5) none macdLine))

namespace MACDStrategy

/-- generate_signal of src/strategy/macd.py lines 37-98 on the fetched close
    series.  An empty window raises at iloc[-1] (none); a single-bar window
    returns HOLD at the last close; otherwise _calculate_macd runs: a None
    result from pandas-ta or a NaN in the last row raises ValueError, caught
    and re-raised as RuntimeError (none); otherwise the MACD crossover rule
    fires, with a BUY only when affordable and a SELL only when the position
    suffices, falling through to HOLD in either infeasible case. -/
def generate_signal (trade_quantity : ℤ) (closes : List ℚ) (position : ℤ) (cash : ℚ) :
    Option MarketDecision :=
  match closes.getLast? with
  | none => none
  | some current_price =>
    if closes.length < 2 then
      some ⟨"AAPL", MarketAction.HOLD, current_price, 0⟩
    else
      match taMacd closes with
      | none => none
      | some rows =>
        match rows.getLast?, rows[rows.length - 2]? with
        | some lastRow, some prevRow =>
          if lastRow.1.isNone || lastRow.2.isNone then none
          else
            let can_buy := decide (current_price * (trade_quantity : ℚ) ≤ cash)
            if gtF lastRow.1 lastRow.2 && leF prevRow.1 prevRow.2 then
              if can_buy then
                some ⟨"AAPL", MarketAction.BUY, current_price, trade_quantity⟩
              else
                some ⟨"AAPL", MarketAction.HOLD, current_price, 0⟩
            else if ltF lastRow.1 lastRow.2 && geF prevRow.1 prevRow.2 then
              if trade_quantity ≤ position then
                some ⟨"AAPL", MarketAction.SELL, current_price, trade_quantity⟩
              else
                some ⟨"AAPL", MarketAction.HOLD, current_price, 0⟩
            else
              some ⟨"AAPL", MarketAction.HOLD, current_price, 0⟩
        | _, _ => none

end MACDStrategy

section EngineLemmas

/-- A period with no decision (a raised exception) leaves the state as it
    was. -/
theorem stepPeriod_none (s : EngineState) : stepPeriod s none = s := rfl

/-- SELL is not BUY; used to discharge branch conditions in evaluations. -/
theorem sell_ne_buy : ¬ (MarketAction.SELL = MarketAction.BUY) := by
  intro h
  exact absurd h (by simp)

/-- HOLD is not BUY; used to discharge branch conditions in evaluations. -/
theorem hold_ne_buy : ¬ (MarketAction.HOLD = MarketAction.BUY) := by
  intro h
  exact absurd h (by simp)

/-- HOLD is not SELL; used to discharge branch conditions in evaluations. -/
theorem hold_ne_sell : ¬ (MarketAction.HOLD = MarketAction.SELL) := by
  intro h
  exact absurd h (by simp)

/-- The cash after a processed period is the cash produced by the trade
    application, in every branch of the body. -/
theorem step_cash (s : EngineState) (d : MarketDecision) :
    (stepPeriod s (some d)).cash = (applyTrade s.cash s.position d).1 := by
  simp only [stepPeriod]
  split
  · rfl
  · split
    · rfl
    · split <;> rfl

/-- The position after a processed period is the position produced by the
    trade application, in every branch of the body. -/
theorem step_position (s : EngineState) (d : MarketDecision) :
    (stepPeriod s (some d)).position = (applyTrade s.cash s.position d).2 := by
  simp only [stepPeriod]
  split
  · rfl
  · split
    · rfl
    · split <;> rfl

/-- Every processed period appends exactly the new valuation to the portfolio
    value series. -/
theorem step_values (s : EngineState) (d : MarketDecision) :
    (stepPeriod s (some d)).portfolio_values =
      s.portfolio_values ++
        [(applyTrade s.cash s.position d).1 +
          ((applyTrade s.cash s.position d).2 : ℚ) * d.price] := by
  simp only [stepPeriod]
  split
  · rfl
  · split
    · rfl
    · split <;> rfl

/-- A processed period appends an entry to the strategy-return series exactly
    when it appends one to the market-return series. -/
theorem step_returns_len (s : EngineState) (dec : Option MarketDecision)
    (h : s.daily_returns.length = s.market_returns.length) :
    (stepPeriod s dec).daily_returns.length = (stepPeriod s dec).market_returns.length := by
  match dec with
  | none => exact h
  | some d =>
    simp only [stepPeriod]
    split
    · exact h
    · split
      · exact h
      · split
        · exact h
        · simpa using h

/-- The trade application keeps cash and position nonnegative as long as the
    decision has nonnegative quantity and nonnegative price. -/
theorem applyTrade_nonneg (cash : ℚ) (position : ℤ) (d : MarketDecision)
    (hc : 0 ≤ cash) (hp : 0 ≤ position) (hq : 0 ≤ d.quantity) (hpr : 0 ≤ d.price) :
    0 ≤ (applyTrade cash position d).1 ∧ 0 ≤ (applyTrade cash position d).2 := by
  unfold applyTrade
  split
  · next hbuy =>
    constructor
    · show 0 ≤ cash - d.price * (d.quantity : ℚ)
      linarith [hbuy.2]
    · show 0 ≤ position + d.quantity
      exact add_nonneg hp hq
  · split
    · next hsell =>
      constructor
      · show 0 ≤ cash + d.price * (d.quantity : ℚ)
        have : (0 : ℚ) ≤ d.price * (d.quantity : ℚ) :=
          mul_nonneg hpr (by exact_mod_cast hq)
        linarith
      · show 0 ≤ position - d.quantity
        have := hsell.2
        omega
    · exact ⟨hc, hp⟩

/-- A HOLD decision never passes the BUY or the SELL test, so the trade
    application leaves cash and position unchanged. -/
theorem applyTrade_hold (cash : ℚ) (position : ℤ) (d : MarketDecision)
    (h : d.action = MarketAction.HOLD) : applyTrade cash position d = (cash, position) := by
  unfold applyTrade
  rw [if_neg (fun hb => hold_ne_buy (h.symm.trans hb.1)),
      if_neg (fun hs => hold_ne_sell (h.symm.trans hs.1))]

/-- Once the first trade is behind it, the buy-and-hold policy returns HOLD
    forever, so folding the loop over the remaining prices never changes cash
    or position and appends the valuation cash plus position times price for
    every period. -/
theorem hold_run (ps : List ℚ) :
    ∀ es : EngineState,
      (ps.foldl stepWithPolicy (es, false)).2 = false ∧
      (ps.foldl stepWithPolicy (es, false)).1.cash = es.cash ∧
      (ps.foldl stepWithPolicy (es, false)).1.position = es.position ∧
      (ps.foldl stepWithPolicy (es, false)).1.portfolio_values =
        es.portfolio_values ++ ps.map (fun p => es.cash + (es.position : ℚ) * p) := by
  induction ps with
  | nil => intro es; exact ⟨rfl, rfl, rfl, by simp⟩
  | cons p t ih =>
    intro es
    rw [List.foldl_cons]
    have hgs : BuyAndHoldStrategy.generate_signal false p es.position es.cash
        = (⟨"AAPL", MarketAction.HOLD, p, 0⟩, false) := by
      unfold BuyAndHoldStrategy.generate_signal
      rw [if_neg (fun hc => Bool.false_ne_true hc.1)]
    have hstep : stepWithPolicy (es, false) p
        = (stepPeriod es (some ⟨"AAPL", MarketAction.HOLD, p, 0⟩), false) := by
      unfold stepWithPolicy
      rw [hgs]
    rw [hstep]
    obtain ⟨h2, hc, hp, hv⟩ := ih (stepPeriod es (some ⟨"AAPL", MarketAction.HOLD, p, 0⟩))
    have hc1 : (stepPeriod es (some ⟨"AAPL", MarketAction.HOLD, p, 0⟩)).cash = es.cash := by
      rw [step_cash, applyTrade_hold _ _ _ rfl]
    have hp1 : (stepPeriod es (some ⟨"AAPL", MarketAction.HOLD, p, 0⟩)).position = es.position := by
      rw [step_position, applyTrade_hold _ _ _ rfl]
    have hv1 : (stepPeriod es (some ⟨"AAPL", MarketAction.HOLD, p, 0⟩)).portfolio_values =
        es.portfolio_values ++ [es.cash + (es.position : ℚ) * p] := by
      rw [step_values, applyTrade_hold _ _ _ rfl]
    refine ⟨h2, ?_, ?_, ?_⟩
    · rw [hc, hc1]
    · rw [hp, hp1]
    · rw [hv, hv1, hc1, hp1]
      simp

/-- The nonnegativity invariant survives folding the loop body over any list
    of period outcomes whose decisions carry nonnegative quantity and price. -/
theorem backtest_inv (ds : List (Option MarketDecision)) :
    ∀ s : EngineState, 0 ≤ s.cash → 0 ≤ s.position →
      (∀ d : MarketDecision, some d ∈ ds → 0 ≤ d.quantity ∧ 0 ≤ d.price) →
      0 ≤ (ds.foldl stepPeriod s).cash ∧ 0 ≤ (ds.foldl stepPeriod s).position := by
  induction ds with
  | nil => exact fun s hc hp _ => ⟨hc, hp⟩
  | cons dec rest ih =>
    intro s hc hp hd
    rw [List.foldl_cons]
    match dec with
    | none =>
      exact ih s hc hp (fun d hm => hd d (List.mem_cons_of_mem _ hm))
    | some d =>
      have hdd := hd d (List.mem_cons_self _ _)
      have hstep := applyTrade_nonneg s.cash s.position d hc hp hdd.1 hdd.2
      refine ih _ ?_ ?_ (fun e hm => hd e (List.mem_cons_of_mem _ hm))
      · rw [step_cash]; exact hstep.1
      · rw [step_position]; exact hstep.2

end EngineLemmas

/-- C1 counterexample: with initial cash 0 and position 0, the decision
    sequence BUY 5 shares at price -1 then SELL 5 shares at price -2 has
    every quantity nonnegative, yet the engine accepts both trades (the BUY
    appears affordable because its cost is negative) and the final cash is
    -5, violating the claimed cash invariant.  The claim as stated places no
    constraint on decision prices, and a negative SELL price breaks it. -/
theorem c1_portfolio_invariant_counterexample :
    (backtest_strategy 0
        [some ⟨"AAPL", MarketAction.BUY, -1, 5⟩,
         some ⟨"AAPL", MarketAction.SELL, -2, 5⟩]).cash = -5 ∧
    (backtest_strategy 0
        [some ⟨"AAPL", MarketAction.BUY, -1, 5⟩,
         some ⟨"AAPL", MarketAction.SELL, -2, 5⟩]).position = 0 := by
  norm_num [backtest_strategy, stepPeriod, applyTrade, initState, sell_ne_buy]

/-- C1 amended: starting from nonnegative initial cash and position 0, if
    every decision of the run has nonnegative quantity and nonnegative price,
    then cash and position are nonnegative after every processed period.
    Every prefix of a valid decision sequence is itself a valid decision
    sequence, so quantifying over all sequences covers the state after every
    period of a longer run. -/
theorem c1_portfolio_invariant (initial_cash : ℚ) (hc : 0 ≤ initial_cash)
    (ds : List (Option MarketDecision))
    (hd : ∀ d : MarketDecision, some d ∈ ds → 0 ≤ d.quantity ∧ 0 ≤ d.price) :
    0 ≤ (backtest_strategy initial_cash ds).cash ∧
    0 ≤ (backtest_strategy initial_cash ds).position :=
  backtest_inv ds (initState initial_cash) hc le_rfl hd

/-- C1 witness: the amended invariant applied to a concrete affordable BUY. -/
theorem c1_portfolio_invariant_witness :
    0 ≤ (backtest_strategy 5 [some ⟨"AAPL", MarketAction.BUY, 1, 2⟩]).cash ∧
    0 ≤ (backtest_strategy 5 [some ⟨"AAPL", MarketAction.BUY, 1, 2⟩]).position := by
  refine c1_portfolio_invariant 5 (by norm_num) _ ?_
  intro d hmem
  have h1 : some d = some (⟨"AAPL", MarketAction.BUY, 1, 2⟩ : MarketDecision) :=
    List.mem_singleton.mp hmem
  cases Option.some.inj h1
  exact ⟨by norm_num, by norm_num⟩

/-- C2: the engine applies a BUY with sufficient cash by moving the cost from
    cash into position, a SELL with sufficient position by moving the
    proceeds from position into cash, and leaves cash and position untouched
    in every other action and feasibility combination. -/
theorem c2_trade_effects (s : EngineState) (d : MarketDecision) :
    (d.action = MarketAction.BUY → d.price * (d.quantity : ℚ) ≤ s.cash →
      (stepPeriod s (some d)).cash = s.cash - d.price * (d.quantity : ℚ) ∧
      (stepPeriod s (some d)).position = s.position + d.quantity) ∧
    (d.action = MarketAction.SELL → d.quantity ≤ s.position →
      (stepPeriod s (some d)).cash = s.cash + d.price * (d.quantity : ℚ) ∧
      (stepPeriod s (some d)).position = s.position - d.quantity) ∧
    (¬(d.action = MarketAction.BUY ∧ d.price * (d.quantity : ℚ) ≤ s.cash) →
      ¬(d.action = MarketAction.SELL ∧ d.quantity ≤ s.position) →
      (stepPeriod s (some d)).cash = s.cash ∧
      (stepPeriod s (some d)).position = s.position) := by
  refine ⟨?_, ?_, ?_⟩
  · intro ha hf
    constructor
    · rw [step_cash]; unfold applyTrade; rw [if_pos ⟨ha, hf⟩]
    · rw [step_position]; unfold applyTrade; rw [if_pos ⟨ha, hf⟩]
  · intro ha hf
    have hnb : ¬(d.action = MarketAction.BUY ∧ d.price * (d.quantity : ℚ) ≤ s.cash) := by
      intro hb
      rw [ha] at hb
      exact absurd hb.1 (by decide)
    constructor
    · rw [step_cash]; unfold applyTrade; rw [if_neg hnb, if_pos ⟨ha, hf⟩]
    · rw [step_position]; unfold applyTrade; rw [if_neg hnb, if_pos ⟨ha, hf⟩]
  · intro h1 h2
    constructor
    · rw [step_cash]; unfold applyTrade; rw [if_neg h1, if_neg h2]
    · rw [step_position]; unfold applyTrade; rw [if_neg h1, if_neg h2]

/-- C2 witness: the BUY branch of the trade effects at a concrete state. -/
theorem c2_trade_effects_witness :
    (stepPeriod (initState 100) (some ⟨"AAPL", MarketAction.BUY, 10, 3⟩)).cash = 70 ∧
    (stepPeriod (initState 100) (some ⟨"AAPL", MarketAction.BUY, 10, 3⟩)).position = 3 := by
  have h := (c2_trade_effects (initState 100) ⟨"AAPL", MarketAction.BUY, 10, 3⟩).1
    rfl (by norm_num [initState])
  constructor
  · rw [h.1]; norm_num [initState]
  · rw [h.2]; norm_num [initState]

/-- C3: a period whose generate_signal call raises is skipped: the loop body
    returns the state unchanged, with nothing appended to the date, value,
    price or return series and the portfolio and the previous-value and
    previous-price trackers untouched, and the run over any sequence with the
    failed period removed is identical, so the loop just continues. -/
theorem c3_skip_failed_period (s : EngineState) (initial_cash : ℚ)
    (pre post : List (Option MarketDecision)) :
    stepPeriod s none = s ∧
    backtest_strategy initial_cash (pre ++ none :: post) =
      backtest_strategy initial_cash (pre ++ post) := by
  refine ⟨rfl, ?_⟩
  unfold backtest_strategy
  rw [List.foldl_append, List.foldl_append, List.foldl_cons, stepPeriod_none]

/-- C4: evaluation of the loop at the failing input of the claim.  Starting
    with cash 10, the run BUY 1 at 10, HOLD at 0, HOLD at 5, HOLD at 6 drives
    the portfolio value to exactly 0 in period 2, so period 3 divides by a
    previous value of 0.  The broad except clause catches the
    ZeroDivisionError: the run does not stop, periods 3 and 4 still append
    their valuations 5 and 6 (and their dates and prices), while the return
    series receive nothing after the error and keep their single entry. -/
theorem c4_divide_by_zero_recovered :
    (backtest_strategy 10
        [some ⟨"AAPL", MarketAction.BUY, 10, 1⟩,
         some ⟨"AAPL", MarketAction.HOLD, 0, 0⟩,
         some ⟨"AAPL", MarketAction.HOLD, 5, 0⟩,
         some ⟨"AAPL", MarketAction.HOLD, 6, 0⟩]).portfolio_values = [10, 0, 5, 6] ∧
    (backtest_strategy 10
        [some ⟨"AAPL", MarketAction.BUY, 10, 1⟩,
         some ⟨"AAPL", MarketAction.HOLD, 0, 0⟩,
         some ⟨"AAPL", MarketAction.HOLD, 5, 0⟩,
         some ⟨"AAPL", MarketAction.HOLD, 6, 0⟩]).daily_returns = [-1] ∧
    (backtest_strategy 10
        [some ⟨"AAPL", MarketAction.BUY, 10, 1⟩,
         some ⟨"AAPL", MarketAction.HOLD, 0, 0⟩,
         some ⟨"AAPL", MarketAction.HOLD, 5, 0⟩,
         some ⟨"AAPL", MarketAction.HOLD, 6, 0⟩]).market_returns = [-1] ∧
    (backtest_strategy 10
        [some ⟨"AAPL", MarketAction.BUY, 10, 1⟩,
         some ⟨"AAPL", MarketAction.HOLD, 0, 0⟩,
         some ⟨"AAPL", MarketAction.HOLD, 5, 0⟩,
         some ⟨"AAPL", MarketAction.HOLD, 6, 0⟩]).dates = 4 := by
  norm_num [backtest_strategy, stepPeriod, applyTrade, initState, hold_ne_buy, hold_ne_sell]

/-- The return-series length invariant survives the whole fold. -/
theorem returns_len_fold (ds : List (Option MarketDecision)) :
    ∀ s : EngineState, s.daily_returns.length = s.market_returns.length →
      (ds.foldl stepPeriod s).daily_returns.length =
        (ds.foldl stepPeriod s).market_returns.length := by
  induction ds with
  | nil => exact fun s h => h
  | cons dec rest ih =>
    intro s h
    rw [List.foldl_cons]
    exact ih _ (step_returns_len s dec h)

/-- C10: in every run, an entry is appended to the strategy-return series
    exactly when one is appended to the market-return series, so the two have
    equal length at the end of the loop and the length-mismatch truncation
    branch before the metric computation is never taken. -/
theorem c10_return_series_aligned (initial_cash : ℚ)
    (ds : List (Option MarketDecision)) :
    (backtest_strategy initial_cash ds).daily_returns.length =
      (backtest_strategy initial_cash ds).market_returns.length :=
  returns_len_fold ds (initState initial_cash) rfl

/-- C6 counterexample: with initial cash 10 and prices 3 then 4, buy-and-hold
    buys 3 shares on day 0, leaving 1 of residual cash.  The value on day 1
    is 13, the residual cash plus the position value, while the claimed
    formula floor(10/3) times 4 gives 12: the claim forgets the cash left
    over after the integer-share BUY. -/
theorem c6_buy_and_hold_counterexample :
    (run_buy_and_hold 10 [3, 4]).1.portfolio_values = [10, 13] ∧
    ¬ ((13 : ℚ) = (⌊(10 : ℚ) / 3⌋ : ℚ) * 4) := by
  constructor
  · norm_num [run_buy_and_hold, stepWithPolicy, stepPeriod, applyTrade, initState,
      BuyAndHoldStrategy.generate_signal, BuyAndHoldStrategy.ratTrunc,
      hold_ne_buy, hold_ne_sell]
  · rw [show ⌊(10 : ℚ) / 3⌋ = 3 by norm_num [Int.floor_eq_iff]]
    norm_num

/-- C6 amended: replaying a fixed always-available price series through
    buy-and-hold, with a positive first price below the initial cash, yields
    value initial cash on day 0 and, for every later day t, residual cash
    plus shares times price: c - s p0 + s pt with s = floor(c / p0).  Cash
    and position never change after the day-0 BUY, so no further trades
    occur. -/
theorem c6_buy_and_hold_values (c p0 : ℚ) (ps : List ℚ)
    (hp0 : 0 < p0) (hcp : p0 < c) :
    (run_buy_and_hold c (p0 :: ps)).1.portfolio_values
      = c :: ps.map (fun p => c - p0 * (⌊c / p0⌋ : ℚ) + (⌊c / p0⌋ : ℚ) * p)
    ∧ (run_buy_and_hold c (p0 :: ps)).1.cash = c - p0 * (⌊c / p0⌋ : ℚ)
    ∧ (run_buy_and_hold c (p0 :: ps)).1.position = ⌊c / p0⌋ := by
  have hc0 : 0 < c := lt_trans hp0 hcp
  have hdivpos : 0 < c / p0 := div_pos hc0 hp0
  have h1le : (1 : ℚ) ≤ c / p0 := (one_le_div hp0).mpr (le_of_lt hcp)
  have hfloor1 : (1 : ℤ) ≤ ⌊c / p0⌋ := Int.le_floor.mpr (by exact_mod_cast h1le)
  have htr : BuyAndHoldStrategy.ratTrunc (c / p0) = ⌊c / p0⌋ := by
    unfold BuyAndHoldStrategy.ratTrunc
    rw [if_pos (le_of_lt hdivpos)]
  have hcost : p0 * ((⌊c / p0⌋ : ℤ) : ℚ) ≤ c := by
    have h1 : ((⌊c / p0⌋ : ℤ) : ℚ) ≤ c / p0 := Int.floor_le _
    calc p0 * ((⌊c / p0⌋ : ℤ) : ℚ) ≤ p0 * (c / p0) :=
          mul_le_mul_of_nonneg_left h1 (le_of_lt hp0)
      _ = c := by field_simp
  have hgs : BuyAndHoldStrategy.generate_signal true p0 (initState c).position
      (initState c).cash = (⟨"AAPL", MarketAction.BUY, p0, ⌊c / p0⌋⟩, false) := by
    show BuyAndHoldStrategy.generate_signal true p0 0 c = _
    unfold BuyAndHoldStrategy.generate_signal
    rw [if_pos ⟨rfl, hcp⟩, htr, if_pos (lt_of_lt_of_le zero_lt_one hfloor1)]
  have happ : applyTrade (initState c).cash (initState c).position
      ⟨"AAPL", MarketAction.BUY, p0, ⌊c / p0⌋⟩ = (c - p0 * (⌊c / p0⌋ : ℚ), ⌊c / p0⌋) := by
    show applyTrade c 0 _ = _
    unfold applyTrade
    rw [if_pos ⟨rfl, hcost⟩]
    simp
  unfold run_buy_and_hold
  rw [List.foldl_cons]
  have hstep : stepWithPolicy (initState c, true) p0
      = (stepPeriod (initState c) (some ⟨"AAPL", MarketAction.BUY, p0, ⌊c / p0⌋⟩), false) := by
    unfold stepWithPolicy
    rw [hgs]
  rw [hstep]
  set es1 := stepPeriod (initState c) (some ⟨"AAPL", MarketAction.BUY, p0, ⌊c / p0⌋⟩) with hes1
  have hc1 : es1.cash = c - p0 * (⌊c / p0⌋ : ℚ) := by
    rw [hes1, step_cash, happ]
  have hp1 : es1.position = ⌊c / p0⌋ := by
    rw [hes1, step_position, happ]
  have hv1 : es1.portfolio_values = [c] := by
    rw [hes1, step_values, happ]
    show [] ++ [c - p0 * (⌊c / p0⌋ : ℚ) + (⌊c / p0⌋ : ℚ) * p0] = [c]
    rw [List.nil_append]
    congr 1
    ring
  obtain ⟨_, hfc, hfp, hfv⟩ := hold_run ps es1
  refine ⟨?_, ?_, ?_⟩
  · rw [hfv, hv1, hc1, hp1]
    simp
  · rw [hfc, hc1]
  · rw [hfp, hp1]

/-- C6 witness: the amended value formula applied to initial cash 10 and the
    price series 3, 4. -/
theorem c6_buy_and_hold_values_witness :
    (run_buy_and_hold 10 [3, 4]).1.position = ⌊(10 : ℚ) / 3⌋ :=
  (c6_buy_and_hold_values 10 3 [4] (by norm_num) (by norm_num)).2.2

/-- The specification-level running-peak maximum is nonnegative over positive
    values. -/
theorem maxDrawdownSpec_nonneg (l : List ℚ) :
    ∀ peak : ℚ, 0 < peak → (∀ x ∈ l, 0 < x) → 0 ≤ maxDrawdownSpec peak l := by
  induction l with
  | nil => intro peak _ _; simp [maxDrawdownSpec]
  | cons v t ih =>
    intro peak hp hall
    rw [maxDrawdownSpec]
    refine le_trans ?_ (le_max_left _ _)
    exact div_nonneg (sub_nonneg.mpr (le_max_right peak v))
      (le_of_lt (lt_max_of_lt_left hp))

/-- The scan of calculate_max_drawdown computes, in its max_dd component, the
    running maximum of the running-peak drawdowns: folding from any state
    yields the maximum of the accumulated drawdown and the specification
    value from the current peak.  The enumeration indices only feed the
    durations, so the statement holds for any start index. -/
theorem dd_fold (l : List ℚ) :
    ∀ (n : ℕ) (st : DDState), 0 < st.peak → 0 ≤ st.max_dd → (∀ x ∈ l, 0 < x) →
      ((List.enumFrom n l).foldl ddStep st).max_dd =
        max st.max_dd (maxDrawdownSpec st.peak l) := by
  induction l with
  | nil =>
    intro n st _ h2 _
    simp [List.enumFrom, maxDrawdownSpec, max_eq_left h2]
  | cons v t ih =>
    intro n st hpeak hm hall
    have hv : 0 < v := hall v (List.mem_cons_self _ _)
    have hallt : ∀ x ∈ t, 0 < x := fun x hx => hall x (List.mem_cons_of_mem _ hx)
    rw [show List.enumFrom n (v :: t) = (n, v) :: List.enumFrom (n + 1) t from rfl,
        List.foldl_cons]
    by_cases hlt : st.peak < v
    · have hstep : ddStep st (n, v) =
          { st with peak := v, peak_idx := n, current_dd_duration := 0 } := by
        simp [ddStep, hlt]
      rw [hstep, ih (n + 1) _ (by simpa using hv) (by simpa using hm) hallt]
      rw [maxDrawdownSpec, max_eq_right (le_of_lt hlt), sub_self, zero_div,
          max_eq_right (maxDrawdownSpec_nonneg t v hv hallt)]
    · have hle : v ≤ st.peak := not_lt.mp hlt
      have hpk : (ddStep st (n, v)).peak = st.peak := by
        simp only [ddStep]
        rw [if_neg hlt]
        split <;> rfl
      have hmd : (ddStep st (n, v)).max_dd = max st.max_dd ((st.peak - v) / st.peak) := by
        simp only [ddStep]
        rw [if_neg hlt]
        split
        · next h => exact (max_eq_right (le_of_lt h)).symm
        · next h => exact (max_eq_left (not_lt.mp h)).symm
      have hdd0 : 0 ≤ (st.peak - v) / st.peak :=
        div_nonneg (sub_nonneg.mpr hle) (le_of_lt hpeak)
      rw [ih (n + 1) (ddStep st (n, v)) (by rw [hpk]; exact hpeak)
          (by rw [hmd]; exact le_trans hm (le_max_left _ _)) hallt]
      rw [hmd, hpk, maxDrawdownSpec, max_eq_left hle, max_assoc]

/-- C8: the single forward scan of calculate_max_drawdown on the series
    100, 120, 90, 95, 130 reports drawdown one quarter with duration one
    period, and in general its reported drawdown is the maximum over all
    indices of (running peak - value) / running peak, the running peak being
    reset exactly when a strictly larger value appears. -/
theorem c8_max_drawdown :
    calculate_max_drawdown [100, 120, 90, 95, 130] = (1 / 4, 1) ∧
    ∀ (v0 : ℚ) (vs : List ℚ), 0 < v0 → (∀ x ∈ vs, 0 < x) →
      (calculate_max_drawdown (v0 :: vs)).1 = maxDrawdownSpec v0 (v0 :: vs) := by
  constructor
  · norm_num [calculate_max_drawdown, ddStep, List.enum, List.enumFrom]
  · intro v0 vs h0 hall
    have hall' : ∀ x ∈ v0 :: vs, 0 < x := by
      intro x hx
      rcases List.mem_cons.mp hx with rfl | hx
      · exact h0
      · exact hall x hx
    have hcalc : (calculate_max_drawdown (v0 :: vs)).1 =
        ((List.enumFrom 0 (v0 :: vs)).foldl ddStep
          ⟨v0, 0, 0, 0, 0⟩).max_dd := rfl
    rw [hcalc, dd_fold (v0 :: vs) 0 ⟨v0, 0, 0, 0, 0⟩ h0 le_rfl hall',
        max_eq_right (maxDrawdownSpec_nonneg (v0 :: vs) v0 h0 hall')]

/-- C8 witness: the running-peak characterisation applied to the series 100,
    120, 90. -/
theorem c8_max_drawdown_witness :
    (calculate_max_drawdown (100 :: [120, 90])).1 =
      maxDrawdownSpec 100 (100 :: [120, 90]) :=
  c8_max_drawdown.2 100 [120, 90] (by norm_num) (by norm_num [List.forall_mem_cons])

/-- The sum of a constant list is its length times the constant. -/
theorem sum_const_list (l : List ℚ) (k : ℚ) (h : ∀ x ∈ l, x = k) :
    l.sum = (l.length : ℚ) * k := by
  induction l with
  | nil => simp
  | cons a t ih =>
    have ha := h a (List.mem_cons_self _ _)
    have ht := ih (fun x hx => h x (List.mem_cons_of_mem _ hx))
    rw [List.sum_cons, ha, ht, List.length_cons]
    push_cast
    ring

/-- The mean of a nonempty constant list is the constant. -/
theorem pmean_const (l : List ℚ) (k : ℚ) (hne : l ≠ []) (h : ∀ x ∈ l, x = k) :
    pmean l = k := by
  unfold pmean
  rw [sum_const_list l k h]
  have hlen : (l.length : ℚ) ≠ 0 := by
    have := List.length_pos.mpr hne
    positivity
  field_simp

/-- The squared deviations of a nonempty constant list sum to zero. -/
theorem devsq_sum_zero (l : List ℚ) (k : ℚ) (hne : l ≠ []) (h : ∀ x ∈ l, x = k) :
    (l.map (fun x => (x - pmean l) ^ 2)).sum = 0 := by
  apply List.sum_eq_zero
  intro y hy
  rcases List.mem_map.mp hy with ⟨x, hx, rfl⟩
  rw [h x hx, pmean_const l k hne h, sub_self]
  norm_num

/-- np.var of a nonempty constant list is exactly zero. -/
theorem npVar_const (ys : List ℚ) (k : ℚ) (hne : ys ≠ []) (h : ∀ y ∈ ys, y = k) :
    npVar ys = 0 := by
  unfold npVar
  rw [devsq_sum_zero ys k hne h, zero_div]

/-- C9 counterexample: on the identical pair of series 0, 1 the code returns
    beta 2, while covariance over variance equals 1 under the population
    convention and also equals 1 under the sample convention.  The code mixes
    np.cov (ddof 1) with np.var (ddof 0), so no uniform reading of covariance
    divided by variance matches it. -/
theorem c9_beta_counterexample :
    calculate_beta [0, 1] [0, 1] = 2 ∧
    covPop [0, 1] [0, 1] / varPop [0, 1] = 1 ∧
    covSamp [0, 1] [0, 1] / varSamp [0, 1] = 1 := by
  refine ⟨?_, ?_, ?_⟩
  · norm_num [calculate_beta, npCov, npVar, pmean]
  · norm_num [covPop, varPop, pmean]
  · norm_num [covSamp, varSamp, pmean]

/-- C9 amended: calculate_beta returns the sample covariance (ddof 1 as in
    np.cov) divided by the population variance (ddof 0 as in np.var) whenever
    the latter is nonzero, and exactly 1.0 when the market variance is
    exactly zero, in particular on every nonempty constant market series. -/
theorem c9_beta_mixed_convention (xs ys : List ℚ) :
    (npVar ys = 0 → calculate_beta xs ys = 1) ∧
    (npVar ys ≠ 0 → calculate_beta xs ys = covSamp xs ys / varPop ys) ∧
    (∀ k : ℚ, ys ≠ [] → (∀ y ∈ ys, y = k) → calculate_beta xs ys = 1) := by
  refine ⟨?_, ?_, ?_⟩
  · intro h
    unfold calculate_beta
    rw [if_neg (not_not_intro h)]
  · intro h
    unfold calculate_beta
    rw [if_pos h]
    rfl
  · intro k hne hconst
    unfold calculate_beta
    rw [if_neg (not_not_intro (npVar_const ys k hne hconst))]

/-- C9 witness: beta is 1 on a constant market series. -/
theorem c9_beta_mixed_convention_witness :
    calculate_beta [1, 2] [3, 3] = 1 :=
  (c9_beta_mixed_convention [1, 2] [3, 3]).2.2 3 (by simp)
    (by norm_num [List.forall_mem_cons])

/-- The Sharpe computation returns some 0 as soon as the sample variance of
    the excess returns is exactly zero, the source comparing the std, which
    is the square root of this variance, to zero. -/
theorem sharpe_of_var_zero (returns : List ℚ) (rf : ℚ)
    (h : sampleVar (returns.map (fun r => r - rf / 252)) = some 0) :
    calculate_sharpe returns rf = some 0 := by
  simp only [calculate_sharpe]
  rw [h]
  simp

/-- C7 counterexample: on the singleton constant series 0 the pandas std
    (ddof 1) is NaN, the zero test is false, and the result is NaN rather
    than the claimed exact 0. -/
theorem c7_sharpe_counterexample :
    calculate_sharpe [0] (1 / 50) = none ∧ (none : Option ℝ) ≠ some 0 := by
  constructor
  · rfl
  · simp

/-- C7 amended: the Sharpe computation subtracts the daily risk-free rate
    rf / 252 from every return, yields exactly 0 whenever the sample variance
    (the squared std) of the excess series is exactly 0, in particular on
    every constant series of at least two entries, and otherwise yields
    sqrt 252 times the mean of the excess series over its std. -/
theorem c7_sharpe_semantics (returns : List ℚ) (rf : ℚ) :
    (sampleVar (returns.map (fun r => r - rf / 252)) = some 0 →
      calculate_sharpe returns rf = some 0) ∧
    (∀ v : ℚ, sampleVar (returns.map (fun r => r - rf / 252)) = some v → v ≠ 0 →
      calculate_sharpe returns rf =
        some (Real.sqrt 252 *
          ((pmean (returns.map (fun r => r - rf / 252)) : ℝ) / Real.sqrt (v : ℝ)))) ∧
    (∀ k : ℚ, 2 ≤ returns.length → (∀ x ∈ returns, x = k) →
      calculate_sharpe returns rf = some 0) := by
  refine ⟨sharpe_of_var_zero returns rf, ?_, ?_⟩
  · intro v hv hne
    simp only [calculate_sharpe]
    rw [hv]
    dsimp only
    rw [if_neg hne]
  · intro k h2 hconst
    apply sharpe_of_var_zero
    have hne : returns ≠ [] := List.ne_nil_of_length_pos (by omega)
    have hnem : returns.map (fun r => r - rf / 252) ≠ [] := by
      simpa using hne
    have hconstm : ∀ y ∈ returns.map (fun r => r - rf / 252), y = k - rf / 252 := by
      intro y hy
      rcases List.mem_map.mp hy with ⟨x, hx, rfl⟩
      rw [hconst x hx]
    unfold sampleVar
    rw [if_neg (by rw [List.length_map]; omega),
        devsq_sum_zero _ (k - rf / 252) hnem hconstm, zero_div]

/-- C7 witness: the zero-variance branch applied to the constant series
    3, 3. -/
theorem c7_sharpe_semantics_witness :
    calculate_sharpe [3, 3] (1 / 50) = some 0 :=
  (c7_sharpe_semantics [3, 3] (1 / 50)).2.2 3 (by norm_num)
    (by norm_num [List.forall_mem_cons])

/-- C5 counterexample: on an empty lookback window the SMA strategy raises
    when reading the last close (the HOLD guard itself indexes iloc[-1]), and
    on a two-bar window, shorter than the slow MACD length, the MACD strategy
    raises because pandas-ta returns None and _calculate_macd converts that
    into a ValueError, re-raised as RuntimeError.  Both windows are shorter
    than the respective indicator minimum, yet neither call returns HOLD. -/
theorem c5_insufficient_data_counterexample :
    SMAStrategy.generate_signal 5 20 300 [] 0 100000 = none ∧
    MACDStrategy.generate_signal 100 [5, 6] 0 100000 = none := by
  exact ⟨rfl, rfl⟩

/-- C5 amended: with a nonempty window shorter than the long SMA length the
    SMA strategy returns HOLD at the last close; the MACD strategy returns
    HOLD only on a single-bar window, and raises on every window of two to
    twenty-five bars because pandas-ta cannot produce MACD values there; an
    empty window makes either strategy raise. -/
theorem c5_insufficient_data_behaviour :
    (∀ (closes : List ℚ) (position : ℤ) (cash : ℚ),
        closes ≠ [] → closes.length < 20 →
        ∃ last, closes.getLast? = some last ∧
          SMAStrategy.generate_signal 5 20 300 closes position cash =
            some ⟨"AAPL", MarketAction.HOLD, last, 0⟩) ∧
    (∀ (c : ℚ) (position : ℤ) (cash : ℚ),
        MACDStrategy.generate_signal 100 [c] position cash =
          some ⟨"AAPL", MarketAction.HOLD, c, 0⟩) ∧
    (∀ (closes : List ℚ) (position : ℤ) (cash : ℚ),
        2 ≤ closes.length → closes.length < 26 →
        MACDStrategy.generate_signal 100 closes position cash = none) := by
  refine ⟨?_, ?_, ?_⟩
  · intro closes position cash hne hlen
    have hsome : closes.getLast?.isSome := List.getLast?_isSome.mpr hne
    obtain ⟨last, hlast⟩ := Option.isSome_iff_exists.mp hsome
    refine ⟨last, hlast, ?_⟩
    simp only [SMAStrategy.generate_signal]
    rw [hlast]
    dsimp only
    rw [if_pos hlen]
  · intro c position cash
    rfl
  · intro closes position cash h2 h26
    have hne : closes ≠ [] := List.ne_nil_of_length_pos (by omega)
    have hsome : closes.getLast?.isSome := List.getLast?_isSome.mpr hne
    obtain ⟨last, hlast⟩ := Option.isSome_iff_exists.mp hsome
    have hmac : taMacd closes = none := by
      unfold taMacd
      rw [if_pos h26]
    simp only [MACDStrategy.generate_signal]
    rw [hlast]
    dsimp only
    rw [if_neg (by omega), hmac]

/-- C5 witness: a three-bar window makes the MACD strategy raise. -/
theorem c5_insufficient_data_behaviour_witness :
    MACDStrategy.generate_signal 100 [1, 2, 3] 0 0 = none :=
  c5_insufficient_data_behaviour.2.2 [1, 2, 3] 0 0 (by norm_num) (by norm_num)
